import Mathlib

/-!
Verification of the local media archive / deduplication core of the
mpx-Downloader repository (src/download.py), as a shallow embedding.

The filesystem is modelled by an existence predicate `fs : String → Bool`
(Path.exists) and a modification-time map `mtime : String → Nat`
(Path.stat().st_mtime).  The external title sanitizer
(yt_dlp.utils.sanitize_filename with restricted=False) is an external
collaborator of the repository, so it is carried as an opaque-but-pure
parameter `sanitize : String → String`, exactly as the code uses it.
Python dictionaries preserve insertion order, so the archive store is an
insertion-ordered association list with unique keys.
-/

set_option autoImplicit false

namespace MpxDownloader

/-- Lowercasing of a string character by character, modelling Python's
`str.lower()` as applied to the ASCII keys and titles the program uses. -/
def strToLower (s : String) : String := ⟨s.data.map Char.toLower⟩

/-- Models Python's `str.endswith(t)`. -/
def strEndsWith (s t : String) : Bool := t.data.isSuffixOf s.data

/-- One archive record, the JSON object stored under a composite key in
`download_archive.json` (fields written by `ArchiveManager.add` and the
existing-files importers in src/download.py). -/
structure Entry where
  id : String
  extractor : String
  title : String
  format : String
  file_path : String
  download_date : Nat
  deriving Repr, DecidableEq

/-- The in-memory archive dictionary: insertion-ordered key/value pairs. -/
abbrev Store := List (String × Entry)

/-- Python `self.data.get(k)` / `k in self.data` lookup on the ordered dict. -/
def lookupStore : Store → String → Option Entry
  | [], _ => none
  | (k', v) :: rest, k => if k' = k then some v else lookupStore rest k

/-- Python `del self.data[k]` (keys are unique, so removing every binding of
`k` agrees with deleting the single binding). -/
def eraseStore (st : Store) (k : String) : Store :=
  st.filter (fun p => p.1 ≠ k)

/-- Python `self.data[k] = v`: replace in place when the key exists,
append at the end otherwise (insertion-ordered dict assignment). -/
def insertStore (st : Store) (k : String) (v : Entry) : Store :=
  if st.any (fun p => p.1 = k) then
    st.map (fun p => if p.1 = k then (k, v) else p)
  else st ++ [(k, v)]

/-- The mutable state of `ArchiveManager`: the dict `self.data` and the
`self._dirty` flag. -/
structure ArchiveState where
  data : Store
  dirty : Bool
  deriving Repr, DecidableEq

namespace ArchiveManager

/-- `ArchiveManager.__init__` after a successful (or failed) load: the loaded
dict with the dirty flag cleared. -/
def init (data : Store) : ArchiveState := ⟨data, false⟩

/-- `ArchiveManager.key(vid, extractor, container)`:
`f"{(extractor or 'generic').lower()}_{vid}_{container}"`. -/
def key (vid extractor container : String) : String :=
  strToLower (if extractor = "" then "generic" else extractor)
    ++ "_" ++ vid ++ "_" ++ container

/-- The scan of `list(self.data.items())` inside the title-based fallback of
`ArchiveManager.find`: walk the snapshot in order, queueing keys whose file
is gone (`keys_to_remove`), and stop at the first entry of the requested
container whose sanitized lowercased title equals `clean`.  Returns the found
entry (if any) together with the keys queued for removal at that point. -/
def scanTitle (sanitize : String → String) (fs : String → Bool)
    (container clean : String) :
    Store → List String → Option Entry × List String
  | [], acc => (none, acc)
  | (kk, v) :: rest, acc =>
    if strEndsWith kk ("_" ++ container) then
      if fs v.file_path then
        if strToLower (sanitize v.title) = clean then (some v, acc)
        else scanTitle sanitize fs container clean rest acc
      else scanTitle sanitize fs container clean rest (acc ++ [kk])
    else scanTitle sanitize fs container clean rest acc

/-- Deleting each queued key from the dict (`for key_to_remove in
keys_to_remove: del self.data[key_to_remove]`). -/
def removeKeys (st : Store) (ks : List String) : Store :=
  ks.foldl eraseStore st

/-- The title-based fallback half of `ArchiveManager.find` (the `if title:`
block, reached when the exact key yielded nothing usable).  A `none` or empty
title is falsy in Python, so it skips the block. -/
def findFallback (sanitize : String → String) (fs : String → Bool)
    (st : ArchiveState) (container : String) (title : Option String) :
    Option Entry × ArchiveState :=
  match title with
  | none => (none, st)
  | some t =>
    if t = "" then (none, st)
    else
      let clean := strToLower (sanitize t)
      let res := scanTitle sanitize fs container clean st.data []
      (res.1, ⟨removeKeys st.data res.2, st.dirty || !res.2.isEmpty⟩)

/-- `ArchiveManager.find(vid, extractor, container, title)`: exact
composite-key lookup with stale eviction, then the title fallback.  Returns
the Python return value together with the state of the manager afterwards. -/
def find (sanitize : String → String) (fs : String → Bool)
    (st : ArchiveState) (vid extractor container : String)
    (title : Option String) : Option Entry × ArchiveState :=
  let k := key vid extractor container
  match lookupStore st.data k with
  | some v =>
    if fs v.file_path then (some v, st)
    else findFallback sanitize fs ⟨eraseStore st.data k, true⟩ container title
  | none => findFallback sanitize fs st container title

/-- `ArchiveManager.add(vid, extractor, title, file_path, container)`. -/
def add (fs : String → Bool) (mtime : String → Nat) (st : ArchiveState)
    (vid extractor title file_path container : String) : ArchiveState :=
  let k := key vid extractor container
  let e : Entry :=
    ⟨vid, extractor, title, container, file_path,
      if fs file_path then mtime file_path else 0⟩
  ⟨insertStore st.data k e, true⟩

/-- `ArchiveManager.save()`: write the document only when dirty; a successful
write clears the flag, a failed write leaves it set.  The second component
counts write attempts performed. -/
def save (st : ArchiveState) (writeOk : Bool) : ArchiveState × Nat :=
  if st.dirty then
    if writeOk then (⟨st.data, false⟩, 1) else (st, 1)
  else (st, 0)

end ArchiveManager

/-- The final component of a path (the part after the last '/'), as a
character list: `PurePath.name` of the absolute paths the program builds. -/
def nameChars (p : String) : List Char :=
  p.data.foldl (fun acc c => if c = '/' then [] else acc ++ [c]) []

/-- `PurePath.suffix`: with `i` the index of the last dot of the name, the
slice `name[i:]` when `0 < i < len(name) - 1`, else the empty string. -/
def suffixString (p : String) : String :=
  let name := nameChars p
  match name.reverse.findIdx? (fun c => c = '.') with
  | none => ""
  | some j =>
    let i := name.length - 1 - j
    if 0 < i ∧ i < name.length - 1 then ⟨name.drop i⟩ else ""

/-- `PurePath.stem`: the name with the suffix (if any) cut off. -/
def stemString (p : String) : String :=
  let name := nameChars p
  match name.reverse.findIdx? (fun c => c = '.') with
  | none => ⟨name⟩
  | some j =>
    let i := name.length - 1 - j
    if 0 < i ∧ i < name.length - 1 then ⟨name.take i⟩ else ⟨name⟩

/-- The external effects used by `optimized_copy_from_archive`: file
existence, the yt-dlp filename sanitizer, `Path.resolve` canonicalization,
and the success of `os.link` respectively `shutil.copy2`. -/
structure CopyEnv where
  fs : String → Bool
  sanitize : String → String
  resolve : String → String
  linkOk : String → String → Bool
  copyOk : String → String → Bool

/-- The destination-extension policy of `optimized_copy_from_archive`
(src/download.py lines 227-234), given the container and the source file's
suffix. -/
def resolveTargetExt (container sourceSuffix : String) : String :=
  if container = "mp3" ∨ container = "native" then
    if container = "mp3" then
      if strToLower sourceSuffix = ".mp3" then ".mp3" else sourceSuffix
    else sourceSuffix
  else
    if sourceSuffix ≠ "" then sourceSuffix else "." ++ container

/-- `optimized_copy_from_archive(archive_entry, target_dir, container)`:
the Python boolean result together with the resolved destination path, when
one was computed before returning.  A missing source yields `False`; a
destination that resolves to the source is a no-op success; otherwise the
hardlink is tried and then the byte copy, failure of both yielding `False`
through the outer exception handler. -/
def optimized_copy_from_archive (env : CopyEnv) (e : Entry)
    (targetDir container : String) : Bool × Option String :=
  if env.fs e.file_path = false then (false, none)
  else
    let targetName := env.sanitize e.title
      ++ resolveTargetExt container (suffixString e.file_path)
    let targetPath := targetDir ++ "/" ++ targetName
    if env.resolve e.file_path = env.resolve targetPath then (true, some targetPath)
    else if env.linkOk e.file_path targetPath then (true, some targetPath)
    else if env.copyOk e.file_path targetPath then (true, some targetPath)
    else (false, some targetPath)

/-- One flat playlist item as consumed by `fast_copy_from_archive`:
`e.get("id")`, `e.get("title")`, `e.get("extractor_key")` of the flat
extraction dictionaries. -/
structure Item where
  id : Option String
  title : Option String
  extractor_key : Option String
  deriving Repr, DecidableEq

/-- Python `x or d` on an optional string (both `None` and `""` are falsy). -/
def orDefault (o : Option String) (d : String) : String :=
  match o with
  | none => d
  | some s => if s = "" then d else s

/-- `vid = e.get("id")` with the subsequent `if not vid: continue` guard:
the identity of an item, `""` standing for the falsy values. -/
def itemVid (e : Item) : String := e.id.getD ""

/-- The observable outcome of the archive prepass over a playlist: the
missing identities, the archive entries handed to
`optimized_copy_from_archive` in order (the materialization trace), the
copied count, and the archive state afterwards. -/
structure PlanResult where
  missing : List String
  trace : List Entry
  copied : Nat
  state : ArchiveState
  deriving Repr, DecidableEq

/-- The per-item loop of `fast_copy_from_archive` (src/download.py lines
191-205): skip items without identity, look the rest up via
`ArchiveManager.find` (title supplied as fallback), materialize hits and
collect the identities of misses in collection order. -/
def fastCopyLoop (env : CopyEnv) (sanitize : String → String)
    (fs : String → Bool) (playlistDir container : String) :
    List Item → ArchiveState → PlanResult
  | [], st => ⟨[], [], 0, st⟩
  | e :: rest, st =>
    if itemVid e = "" then
      fastCopyLoop env sanitize fs playlistDir container rest st
    else
      let fr := ArchiveManager.find sanitize fs st (itemVid e)
        (orDefault e.extractor_key "YouTube") container
        (some (orDefault e.title "unknown"))
      match fr.1 with
      | some entry =>
        let ok := (optimized_copy_from_archive env entry playlistDir
          container).1
        let r := fastCopyLoop env sanitize fs playlistDir container rest fr.2
        ⟨r.missing, entry :: r.trace, r.copied + (if ok then 1 else 0),
          r.state⟩
      | none =>
        let r := fastCopyLoop env sanitize fs playlistDir container rest fr.2
        ⟨itemVid e :: r.missing, r.trace, r.copied, r.state⟩

/-- The reference characterization of the planner's miss list: the
identities of exactly the items that carry an identity and are unmatched
against the (fixed) store, in collection order. -/
def planMissingSpec (sanitize : String → String) (fs : String → Bool)
    (st : ArchiveState) (container : String) (items : List Item) :
    List String :=
  items.filterMap (fun e =>
    if itemVid e = "" then none
    else if ((ArchiveManager.find sanitize fs st (itemVid e)
        (orDefault e.extractor_key "YouTube") container
        (some (orDefault e.title "unknown"))).1).isSome then none
    else some (itemVid e))

/-- The reference characterization of the planner's materialization trace:
the found entries of exactly the matched items, in collection order. -/
def planTraceSpec (sanitize : String → String) (fs : String → Bool)
    (st : ArchiveState) (container : String) (items : List Item) :
    List Entry :=
  items.filterMap (fun e =>
    if itemVid e = "" then none
    else (ArchiveManager.find sanitize fs st (itemVid e)
      (orDefault e.extractor_key "YouTube") container
      (some (orDefault e.title "unknown"))).1)

/-- `flat_entries(url, use_cookies)` (src/download.py lines 140-159):
`none` models an extraction exception, which the function converts into the
empty list after printing a warning. -/
def flat_entries (fetched : Option (List Item)) : List Item :=
  fetched.getD []

/-- `fast_copy_from_archive` (src/download.py lines 162-213): flat listing,
then the archive prepass; an empty listing short-circuits, returning no
missing ids and touching nothing. -/
def fast_copy_from_archive (env : CopyEnv) (sanitize : String → String)
    (fs : String → Bool) (fetched : Option (List Item)) (st : ArchiveState)
    (playlistDir container : String) : PlanResult :=
  let entries := flat_entries fetched
  if entries.isEmpty then ⟨[], [], 0, st⟩
  else fastCopyLoop env sanitize fs playlistDir container entries st

/-- The playlist branch of `download_immediate` (src/download.py lines
387-394): when the prepass returns no missing ids the URL is counted as
fully satisfied and `ydl.download` is never invoked for it; otherwise the
missing ids are downloaded. -/
def downloadPhaseInvoked (env : CopyEnv) (sanitize : String → String)
    (fs : String → Bool) (fetched : Option (List Item)) (st : ArchiveState)
    (playlistDir container : String) : Bool :=
  !(fast_copy_from_archive env sanitize fs fetched st playlistDir
    container).missing.isEmpty

/-- `_stable_key_for_path(abs_path, fmt)` (src/download.py lines 716-719):
`f"local_{h}_{fmt}"`, where `h` is the 8-byte blake2b hex digest of the
path; the digest is carried as the pure parameter `hashFn`. -/
def stableKeyForPath (hashFn : String → String) (absPath fmt : String) :
    String :=
  "local_" ++ hashFn absPath ++ "_" ++ fmt

/-- The extension whitelist of `build_archive_from_existing_files_optimized`
per container. -/
def extensionsFor (container : String) : List String :=
  if container = "mp3" then [".mp3"]
  else if container = "native" then [".m4a", ".opus", ".webm", ".mp3", ".aac"]
  else [".mp4", ".mkv", ".webm", ".avi"]

/-- One file of the `download_dir.glob("*")` scan in
`build_archive_from_existing_files_optimized` (src/download.py lines
734-750): on a matching suffix and an absent stable key, write the entry
directly into the dict and set the dirty flag. -/
def importStep (hashFn : String → String) (mtime : String → Nat)
    (container : String) (st : ArchiveState) (p : String) : ArchiveState :=
  if strToLower (suffixString p) ∈ extensionsFor container then
    let k := stableKeyForPath hashFn p container
    if (lookupStore st.data k).isSome then st
    else ⟨insertStore st.data k
      ⟨stemString p, "local", stemString p, container, p, mtime p⟩, true⟩
  else st

/-- `build_archive_from_existing_files_optimized(download_dir, container,
archive_mgr)`: fold the import step over the directory's regular files
(absolute paths, in scan order). -/
def build_archive_from_existing_files_optimized
    (hashFn : String → String) (mtime : String → Nat) (container : String)
    (files : List String) (st : ArchiveState) : ArchiveState :=
  files.foldl (importStep hashFn mtime container) st

/-- A `.webm`-sourced archive entry, the input of the repository's own
regression test `test_mp3_copy_format_bug_fixed`. -/
def webmEntry : Entry :=
  ⟨"vid1", "youtube", "Test Audio", "mp3", "/arch/audio.webm", 7⟩

/-- A concrete effect environment for the materializer: the archive file
exists, sanitization is the identity on this already-clean title, paths
resolve to themselves, and linking succeeds. -/
def webmCopyEnv : CopyEnv :=
  ⟨fun p => p = "/arch/audio.webm", fun s => s, fun p => p,
    fun _ _ => true, fun _ _ => true⟩

/-- The archive of the spec's five-item diff example: items 2 and 4 are
archived and their files exist. -/
def fiveStore : ArchiveState :=
  ⟨[("youtube_id2_mp3",
      ⟨"id2", "YouTube", "Track Two", "mp3", "/arch/2.mp3", 2⟩),
    ("youtube_id4_mp3",
      ⟨"id4", "YouTube", "Track Four", "mp3", "/arch/4.mp3", 4⟩)], false⟩

/-- The flat listing of the spec's five-item diff example. -/
def fiveItems : List Item :=
  [⟨some "id1", some "Track One", some "YouTube"⟩,
    ⟨some "id2", some "Track Two", some "YouTube"⟩,
    ⟨some "id3", some "Track Three", some "YouTube"⟩,
    ⟨some "id4", some "Track Four", some "YouTube"⟩,
    ⟨some "id5", some "Track Five", some "YouTube"⟩]

/-- The filesystem of the five-item example: exactly the two archived files
exist. -/
def fiveFs : String → Bool :=
  fun p => p == "/arch/2.mp3" || p == "/arch/4.mp3"

/-- The materializer environment of the five-item example. -/
def fiveCopyEnv : CopyEnv :=
  ⟨fiveFs, fun s => s, fun p => p, fun _ _ => true, fun _ _ => true⟩

/-- A fixed 16-hex-character digest standing in for the 8-byte blake2b hex
digest of `_stable_key_for_path` (whose output is always 16 hex characters,
never a plain file stem). -/
def hash16 : String → String := fun _ => "0123456789abcdef"

/-- After deleting a key, looking it up yields nothing. -/
theorem lookupStore_erase_self (st : Store) (k : String) :
    lookupStore (eraseStore st k) k = none := by
  induction st with
  | nil => rfl
  | cons p rest ih =>
    by_cases hp : p.1 = k
    · simpa [eraseStore, List.filter_cons, hp] using ih
    · simpa [eraseStore, List.filter_cons, hp, lookupStore] using ih

/-- Lowercasing is empty exactly on the empty string. -/
theorem strToLower_eq_empty_iff (s : String) : strToLower s = "" ↔ s = "" := by
  constructor
  · intro h
    have hd := congrArg String.data h
    simp only [strToLower] at hd
    exact String.ext (by simpa using hd)
  · intro h
    rw [h]
    rfl

/-- C5: a stale exact hit is evicted — when the composite key is present but
its file no longer exists, `find` with no title returns `None`, the key is
gone from the store afterwards, and the dirty flag is set. -/
theorem claim_C5_stale_exact_evicted
    (sanitize : String → String) (fs : String → Bool) (st : ArchiveState)
    (vid extractor container : String) (v : Entry)
    (h : lookupStore st.data (ArchiveManager.key vid extractor container)
          = some v)
    (hfs : fs v.file_path = false) :
    ArchiveManager.find sanitize fs st vid extractor container none
        = (none,
            ⟨eraseStore st.data (ArchiveManager.key vid extractor container),
              true⟩) ∧
      lookupStore
          (eraseStore st.data (ArchiveManager.key vid extractor container))
          (ArchiveManager.key vid extractor container) = none := by
  constructor
  · unfold ArchiveManager.find
    simp [h, hfs, ArchiveManager.findFallback]
  · exact lookupStore_erase_self _ _

/-- C5 witness: a one-entry store whose file is missing from disk. -/
theorem claim_C5_stale_exact_evicted_witness :
    ArchiveManager.find (fun s => s) (fun _ => false)
        ⟨[("youtube_x1_mp3",
            ⟨"x1", "youtube", "Song", "mp3", "/arch/Song.mp3", 5⟩)], false⟩
        "x1" "YouTube" "mp3" none
        = (none,
            ⟨eraseStore
                [("youtube_x1_mp3",
                  ⟨"x1", "youtube", "Song", "mp3", "/arch/Song.mp3", 5⟩)]
                (ArchiveManager.key "x1" "YouTube" "mp3"),
              true⟩) ∧
      lookupStore
          (eraseStore
            [("youtube_x1_mp3",
              ⟨"x1", "youtube", "Song", "mp3", "/arch/Song.mp3", 5⟩)]
            (ArchiveManager.key "x1" "YouTube" "mp3"))
          (ArchiveManager.key "x1" "YouTube" "mp3") = none :=
  claim_C5_stale_exact_evicted (fun s => s) (fun _ => false)
    ⟨[("youtube_x1_mp3",
        ⟨"x1", "youtube", "Song", "mp3", "/arch/Song.mp3", 5⟩)], false⟩
    "x1" "YouTube" "mp3"
    ⟨"x1", "youtube", "Song", "mp3", "/arch/Song.mp3", 5⟩ (by decide) rfl

/-- C8: the key function is a pure function, case-insensitive in the source
component only: sources with equal lowercasings give the same key, while keys
are injective in the identity component and in the container component (so
any change of case there changes the key). -/
theorem claim_C8_key_properties :
    (∀ vid ex1 ex2 c, strToLower ex1 = strToLower ex2 →
        ArchiveManager.key vid ex1 c = ArchiveManager.key vid ex2 c) ∧
      (∀ vid1 vid2 ex c,
        ArchiveManager.key vid1 ex c = ArchiveManager.key vid2 ex c ↔
          vid1 = vid2) ∧
      (∀ vid ex c1 c2,
        ArchiveManager.key vid ex c1 = ArchiveManager.key vid ex c2 ↔
          c1 = c2) := by
  refine ⟨?_, ?_, ?_⟩
  · intro vid ex1 ex2 c h
    unfold ArchiveManager.key
    by_cases h1 : ex1 = ""
    · have h2 : ex2 = "" := by
        have : strToLower ex2 = "" := by rw [← h, h1]; rfl
        exact (strToLower_eq_empty_iff ex2).mp this
      rw [h1, h2]
    · have h2 : ex2 ≠ "" := by
        intro h2
        exact h1 ((strToLower_eq_empty_iff ex1).mp (by rw [h, h2]; rfl))
      rw [if_neg h1, if_neg h2, h]
  · intro vid1 vid2 ex c
    constructor
    · intro h
      have hd := congrArg String.data h
      simp only [ArchiveManager.key, String.data_append,
        List.append_assoc] at hd
      exact String.ext
        (List.append_cancel_right
          (List.append_cancel_left (List.append_cancel_left hd)))
    · intro h; rw [h]
  · intro vid ex c1 c2
    constructor
    · intro h
      have hd := congrArg String.data h
      simp only [ArchiveManager.key, String.data_append,
        List.append_assoc] at hd
      exact String.ext
        (List.append_cancel_left (List.append_cancel_left
          (List.append_cancel_left (List.append_cancel_left hd))))
    · intro h; rw [h]

/-- C8 witness: the spec's instance — source case is ignored, while a case
change in the identity or the container yields a different key. -/
theorem claim_C8_key_properties_witness :
    ArchiveManager.key "x" "YouTube" "mp3"
        = ArchiveManager.key "x" "youtube" "mp3" ∧
      ArchiveManager.key "X" "youtube" "mp3"
        ≠ ArchiveManager.key "x" "youtube" "mp3" ∧
      ArchiveManager.key "x" "youtube" "MP3"
        ≠ ArchiveManager.key "x" "youtube" "mp3" := by
  refine ⟨claim_C8_key_properties.1 "x" "YouTube" "youtube" "mp3" (by decide),
    fun he => ?_, fun he => ?_⟩
  · exact absurd ((claim_C8_key_properties.2.1 "X" "x" "youtube" "mp3").mp he)
      (by decide)
  · exact absurd ((claim_C8_key_properties.2.2 "x" "youtube" "MP3" "mp3").mp he)
      (by decide)

/-- C9: `save` writes only when the dirty flag is set — a fresh session with
no mutation performs zero writes, a successful save clears the flag, and the
immediately repeated save performs zero writes. -/
theorem claim_C9_save_writes_only_when_dirty :
    (∀ st ok, st.dirty = false → ArchiveManager.save st ok = (st, 0)) ∧
      (∀ data ok, ArchiveManager.save (ArchiveManager.init data) ok
        = (ArchiveManager.init data, 0)) ∧
      (∀ st, (ArchiveManager.save st true).1.dirty = false ∧
        ArchiveManager.save (ArchiveManager.save st true).1 true
          = ((ArchiveManager.save st true).1, 0)) := by
  refine ⟨?_, ?_, ?_⟩
  · intro st ok h
    simp [ArchiveManager.save, h]
  · intro data ok
    simp [ArchiveManager.save, ArchiveManager.init]
  · intro st
    by_cases h : st.dirty = true
    · simp [ArchiveManager.save, h]
    · simp only [Bool.not_eq_true] at h
      simp [ArchiveManager.save, h]

/-- C9 witness: a fresh session saves nothing, and after a successful save of
a dirty store the flag is clear and a repeated save writes nothing. -/
theorem claim_C9_save_writes_only_when_dirty_witness :
    ArchiveManager.save (ArchiveManager.init []) true
        = (ArchiveManager.init [], 0) ∧
      (ArchiveManager.save (⟨[], true⟩ : ArchiveState) true).1.dirty = false ∧
      ArchiveManager.save
          (ArchiveManager.save (⟨[], true⟩ : ArchiveState) true).1 true
        = ((ArchiveManager.save (⟨[], true⟩ : ArchiveState) true).1, 0) :=
  ⟨claim_C9_save_writes_only_when_dirty.2.1 [] true,
    (claim_C9_save_writes_only_when_dirty.2.2 (⟨[], true⟩ : ArchiveState)).1,
    (claim_C9_save_writes_only_when_dirty.2.2 (⟨[], true⟩ : ArchiveState)).2⟩

/-- C10: a pure miss without a title fallback is read-only — when the
composite key is absent and no title is supplied, `find` returns `None` and
leaves the store and the dirty flag exactly unchanged. -/
theorem claim_C10_pure_miss_readonly
    (sanitize : String → String) (fs : String → Bool) (st : ArchiveState)
    (vid extractor container : String)
    (h : lookupStore st.data (ArchiveManager.key vid extractor container)
          = none) :
    ArchiveManager.find sanitize fs st vid extractor container none
      = (none, st) := by
  unfold ArchiveManager.find
  simp only [h]
  rfl

/-- C10 witness: the empty store misses on a concrete key, and the lookup
returns `None` with the state untouched. -/
theorem claim_C10_pure_miss_readonly_witness :
    lookupStore (ArchiveManager.init []).data
        (ArchiveManager.key "x1" "YouTube" "mp3") = none ∧
      ArchiveManager.find (fun s => s) (fun _ => true)
          (ArchiveManager.init []) "x1" "YouTube" "mp3" none
        = (none, ArchiveManager.init []) :=
  ⟨rfl, claim_C10_pure_miss_readonly (fun s => s) (fun _ => true)
    (ArchiveManager.init []) "x1" "YouTube" "mp3" rfl⟩

/-- C4: title-based fallback — in a store of two entries with different
identities, normalized-equal titles and the same container, a lookup whose
composite key matches neither entry but whose title normalizes equal returns
an entry by title alone (the first one), and its stored title normalizes
equal to the query title; the store is left unchanged. -/
theorem claim_C4_title_fallback
    (sanitize : String → String) (fs : String → Bool)
    (ka kb : String) (va vb : Entry) (dirty : Bool)
    (vid extractor container t : String)
    (hkeys : ka ≠ kb) (hids : va.id ≠ vb.id)
    (hmiss : lookupStore [(ka, va), (kb, vb)]
        (ArchiveManager.key vid extractor container) = none)
    (hka : strEndsWith ka ("_" ++ container) = true)
    (hkb : strEndsWith kb ("_" ++ container) = true)
    (hfa : fs va.file_path = true)
    (hta : strToLower (sanitize va.title) = strToLower (sanitize t))
    (htb : strToLower (sanitize vb.title) = strToLower (sanitize t))
    (ht : t ≠ "") :
    ArchiveManager.find sanitize fs ⟨[(ka, va), (kb, vb)], dirty⟩
        vid extractor container (some t)
        = (some va, ⟨[(ka, va), (kb, vb)], dirty⟩) ∧
      strToLower (sanitize va.title) = strToLower (sanitize t) := by
  refine ⟨?_, hta⟩
  unfold ArchiveManager.find
  simp only [hmiss]
  unfold ArchiveManager.findFallback
  simp [ht, ArchiveManager.scanTitle, hka, hfa, hta,
    ArchiveManager.removeKeys]

/-- C4 witness: two concrete entries whose titles differ only in case. -/
theorem claim_C4_title_fallback_witness :
    ArchiveManager.find (fun s => s) (fun _ => true)
        ⟨[("youtube_a1_mp3",
            ⟨"a1", "youtube", "My Song", "mp3", "/arch/a.mp3", 1⟩),
          ("youtube_b2_mp3",
            ⟨"b2", "youtube", "MY SONG", "mp3", "/arch/b.mp3", 2⟩)], false⟩
        "zz" "youtube" "mp3" (some "my song")
        = (some ⟨"a1", "youtube", "My Song", "mp3", "/arch/a.mp3", 1⟩,
            ⟨[("youtube_a1_mp3",
                ⟨"a1", "youtube", "My Song", "mp3", "/arch/a.mp3", 1⟩),
              ("youtube_b2_mp3",
                ⟨"b2", "youtube", "MY SONG", "mp3", "/arch/b.mp3", 2⟩)],
              false⟩) ∧
      strToLower ((fun s => s)
          ((⟨"a1", "youtube", "My Song", "mp3", "/arch/a.mp3", 1⟩ : Entry).title))
        = strToLower ((fun s => s) "my song") :=
  claim_C4_title_fallback (fun s => s) (fun _ => true)
    "youtube_a1_mp3" "youtube_b2_mp3"
    ⟨"a1", "youtube", "My Song", "mp3", "/arch/a.mp3", 1⟩
    ⟨"b2", "youtube", "MY SONG", "mp3", "/arch/b.mp3", 2⟩ false
    "zz" "youtube" "mp3" "my song"
    (by decide) (by decide) (by decide) (by decide) (by decide)
    rfl (by decide) (by decide) (by decide)

/-- A successful lookup comes from a binding of the store. -/
theorem lookupStore_eq_some_mem {st : Store} {k : String} {v : Entry}
    (h : lookupStore st k = some v) : (k, v) ∈ st := by
  induction st with
  | nil => simp [lookupStore] at h
  | cons p rest ih =>
    obtain ⟨k', v'⟩ := p
    by_cases hp : k' = k
    · simp [lookupStore, hp] at h
      simp [hp, h]
    · simp only [lookupStore, if_neg hp] at h
      exact List.mem_cons_of_mem _ (ih h)

/-- When every file of the scanned snapshot exists, the fallback scan queues
no key for removal. -/
theorem scanTitle_snd_of_all_exists (sanitize : String → String)
    (fs : String → Bool) (container clean : String) (l : Store)
    (hfs : ∀ kv ∈ l, fs kv.2.file_path = true) (acc : List String) :
    (ArchiveManager.scanTitle sanitize fs container clean l acc).2 = acc := by
  induction l generalizing acc with
  | nil => rfl
  | cons p rest ih =>
    obtain ⟨kk, v⟩ := p
    have hv : fs v.file_path = true := hfs (kk, v) (by simp)
    have hrest : ∀ kv ∈ rest, fs kv.2.file_path = true := fun kv hkv =>
      hfs kv (List.mem_cons_of_mem _ hkv)
    by_cases he : strEndsWith kk ("_" ++ container) = true
    · by_cases hm : strToLower (sanitize v.title) = clean
      · simp [ArchiveManager.scanTitle, he, hv, hm]
      · simp only [ArchiveManager.scanTitle, he, hv, hm, if_true, if_false,
          if_neg hm]
        exact ih hrest acc
    · simp only [Bool.not_eq_true] at he
      simp only [ArchiveManager.scanTitle, he, Bool.false_eq_true, if_false]
      exact ih hrest acc

/-- When every file recorded in the store exists on disk, `find` leaves the
archive state exactly as it was. -/
theorem find_state_of_all_exists (sanitize : String → String)
    (fs : String → Bool) (st : ArchiveState)
    (vid extractor container : String) (title : Option String)
    (hfs : ∀ kv ∈ st.data, fs kv.2.file_path = true) :
    (ArchiveManager.find sanitize fs st vid extractor container title).2
      = st := by
  obtain ⟨data, dirty⟩ := st
  unfold ArchiveManager.find
  cases hl : lookupStore data (ArchiveManager.key vid extractor container) with
  | some v =>
    have hv : fs v.file_path = true := hfs _ (lookupStore_eq_some_mem hl)
    simp [hl, hv]
  | none =>
    simp only [hl]
    unfold ArchiveManager.findFallback
    cases title with
    | none => rfl
    | some t =>
      by_cases ht : t = ""
      · simp [ht]
      · have hscan := scanTitle_snd_of_all_exists sanitize fs container
          (strToLower (sanitize t)) data hfs []
        simp [ht, hscan, ArchiveManager.removeKeys]

/-- C3: the planner processes the flat listing in collection order — items
without identity are skipped, each remaining item is looked up via `find`
(identity, source, container, title fallback), the found entries are handed
to the materializer in order, and the returned missing-identity list is
exactly the identities of the unmatched items in their original collection
order (stated against a store all of whose files exist, so lookups do not
evict along the way). -/
theorem claim_C3_planner_collection_order (env : CopyEnv)
    (sanitize : String → String) (fs : String → Bool)
    (playlistDir container : String) (items : List Item) (st : ArchiveState)
    (hfs : ∀ kv ∈ st.data, fs kv.2.file_path = true) :
    (fastCopyLoop env sanitize fs playlistDir container items st).missing
        = planMissingSpec sanitize fs st container items ∧
      (fastCopyLoop env sanitize fs playlistDir container items st).trace
        = planTraceSpec sanitize fs st container items ∧
      (fastCopyLoop env sanitize fs playlistDir container items st).state
        = st := by
  induction items with
  | nil => exact ⟨rfl, rfl, rfl⟩
  | cons e rest ih =>
    have hstate := find_state_of_all_exists sanitize fs st (itemVid e)
      (orDefault e.extractor_key "YouTube") container
      (some (orDefault e.title "unknown")) hfs
    by_cases hv : itemVid e = ""
    · simpa [fastCopyLoop, planMissingSpec, planTraceSpec, hv] using ih
    · cases hr : (ArchiveManager.find sanitize fs st (itemVid e)
        (orDefault e.extractor_key "YouTube") container
        (some (orDefault e.title "unknown"))).1 with
      | some entry =>
        simp [fastCopyLoop, planMissingSpec, planTraceSpec, hv, hr, hstate,
          ih.1, ih.2.1, ih.2.2]
      | none =>
        simp [fastCopyLoop, planMissingSpec, planTraceSpec, hv, hr, hstate,
          ih.1, ih.2.1, ih.2.2]

/-- C3 witness: the spec's five-item example — items 2 and 4 are archived,
the prepass materializes exactly those two entries in order and returns the
missing identities 1, 3, 5 in original collection order. -/
theorem claim_C3_planner_collection_order_witness :
    (fastCopyLoop fiveCopyEnv (fun s => s) fiveFs "/dl/P" "mp3" fiveItems
        fiveStore).missing = ["id1", "id3", "id5"] ∧
      (fastCopyLoop fiveCopyEnv (fun s => s) fiveFs "/dl/P" "mp3" fiveItems
        fiveStore).trace
        = [⟨"id2", "YouTube", "Track Two", "mp3", "/arch/2.mp3", 2⟩,
            ⟨"id4", "YouTube", "Track Four", "mp3", "/arch/4.mp3", 4⟩] ∧
      (fastCopyLoop fiveCopyEnv (fun s => s) fiveFs "/dl/P" "mp3" fiveItems
        fiveStore).state = fiveStore := by
  have h := claim_C3_planner_collection_order fiveCopyEnv (fun s => s)
    fiveFs "/dl/P" "mp3" fiveItems fiveStore (by decide)
  exact ⟨h.1.trans (by decide), h.2.1.trans (by decide), h.2.2⟩

/-- C1: materializing a `.webm`-sourced entry under the "mp3" container does
NOT enforce the `.mp3` extension — the code keeps the source suffix, so the
destination ends in `.webm`, contradicting the claim (and the repository's
own regression test, which demands `.mp3` and never `.webm`); the
native-container half of the claim does hold. -/
theorem claim_C1_mp3_extension_not_enforced :
    resolveTargetExt "mp3" ".webm" = ".webm" ∧
      resolveTargetExt "native" ".webm" = ".webm" ∧
      optimized_copy_from_archive webmCopyEnv webmEntry "/dl/target" "mp3"
        = (true, some "/dl/target/Test Audio.webm") ∧
      strEndsWith
          ((optimized_copy_from_archive webmCopyEnv webmEntry "/dl/target"
            "mp3").2.getD "") ".mp3" = false := by
  decide

/-- C2: a failure of the flat listing does NOT degrade to "treat the items
as not-cached" — `flat_entries` maps the exception to the empty list,
`fast_copy_from_archive` then short-circuits to an empty missing list, and
the playlist branch of `download_immediate` treats that as "all items
satisfied from archive" and never invokes the download phase for the URL.
With the very same uncached item and a successful listing, the download
phase does run, exhibiting the divergence. -/
theorem claim_C2_flat_failure_skips_download :
    fast_copy_from_archive fiveCopyEnv (fun s => s) (fun _ => false) none
        (ArchiveManager.init []) "/dl/P" "mp3"
        = ⟨[], [], 0, ArchiveManager.init []⟩ ∧
      downloadPhaseInvoked fiveCopyEnv (fun s => s) (fun _ => false) none
        (ArchiveManager.init []) "/dl/P" "mp3" = false ∧
      downloadPhaseInvoked fiveCopyEnv (fun s => s) (fun _ => false)
        (some [⟨some "id1", some "Track One", some "YouTube"⟩])
        (ArchiveManager.init []) "/dl/P" "mp3" = true := by
  decide

/-- A lookup succeeds exactly when some binding carries the key. -/
theorem lookupStore_isSome_eq_any (st : Store) (k : String) :
    (lookupStore st k).isSome = st.any (fun p => p.1 = k) := by
  induction st with
  | nil => rfl
  | cons p rest ih =>
    obtain ⟨k1, v1⟩ := p
    by_cases h1 : k1 = k <;> simp [lookupStore, h1, ih]

/-- Replacing the value at one key leaves every key's presence unchanged. -/
theorem lookupStore_map_replace_isSome (st : Store) (k' k : String)
    (v : Entry) :
    (lookupStore (st.map (fun p => if p.1 = k' then (k', v) else p)) k).isSome
      = (lookupStore st k).isSome := by
  induction st with
  | nil => rfl
  | cons p rest ih =>
    obtain ⟨k1, v1⟩ := p
    rw [List.map_cons]
    by_cases h1 : (k1, v1).1 = k'
    · rw [show (if (k1, v1).1 = k' then (k', v) else (k1, v1)) = (k', v) from
        if_pos h1]
      simp only at h1
      subst h1
      by_cases hk : k1 = k <;> simp [lookupStore, hk, ih]
    · rw [show (if (k1, v1).1 = k' then (k', v) else (k1, v1)) = (k1, v1) from
        if_neg h1]
      by_cases hk : k1 = k <;> simp [lookupStore, hk, ih]

/-- A binding found in the front of an appended store is still found. -/
theorem lookupStore_append_left {st : Store} (l2 : Store) {k : String}
    {v : Entry} (h : lookupStore st k = some v) :
    lookupStore (st ++ l2) k = some v := by
  induction st with
  | nil => simp [lookupStore] at h
  | cons p rest ih =>
    obtain ⟨k1, v1⟩ := p
    by_cases h1 : k1 = k
    · simpa [lookupStore, h1] using h
    · simp only [lookupStore, if_neg h1] at h ⊢
      exact ih h

/-- A key missing from the front of an appended store is looked up in the
back. -/
theorem lookupStore_append_right {st : Store} (l2 : Store) {k : String}
    (h : lookupStore st k = none) :
    lookupStore (st ++ l2) k = lookupStore l2 k := by
  induction st with
  | nil => rfl
  | cons p rest ih =>
    obtain ⟨k1, v1⟩ := p
    by_cases h1 : k1 = k
    · simp [lookupStore, h1] at h
    · simp only [lookupStore, if_neg h1] at h ⊢
      exact ih h

/-- Dict assignment never loses other keys. -/
theorem insertStore_preserves_isSome (st : Store) (k' k : String) (v : Entry)
    (h : (lookupStore st k).isSome = true) :
    (lookupStore (insertStore st k' v) k).isSome = true := by
  unfold insertStore
  by_cases ha : st.any (fun p => p.1 = k') = true
  · simp only [ha, if_true]
    rw [lookupStore_map_replace_isSome]
    exact h
  · simp only [ha, Bool.false_eq_true, if_false]
    obtain ⟨w, hw⟩ := Option.isSome_iff_exists.mp h
    rw [lookupStore_append_left _ hw]
    rfl

/-- The import step never loses keys. -/
theorem importStep_preserves_isSome (hashFn : String → String)
    (mtime : String → Nat) (container : String) (st : ArchiveState)
    (p k : String) (h : (lookupStore st.data k).isSome = true) :
    (lookupStore (importStep hashFn mtime container st p).data k).isSome
      = true := by
  unfold importStep
  by_cases hs : strToLower (suffixString p) ∈ extensionsFor container
  · simp only [hs, if_true]
    by_cases hp : (lookupStore st.data
        (stableKeyForPath hashFn p container)).isSome = true
    · simpa [hp] using h
    · simp only [hp, Bool.false_eq_true, if_false]
      exact insertStore_preserves_isSome _ _ _ _ h
  · simpa [hs] using h

/-- After the import step for a file of matching suffix, the file's stable
key is present. -/
theorem importStep_establishes_key (hashFn : String → String)
    (mtime : String → Nat) (container : String) (st : ArchiveState)
    (p : String) (hs : strToLower (suffixString p) ∈ extensionsFor container) :
    (lookupStore (importStep hashFn mtime container st p).data
      (stableKeyForPath hashFn p container)).isSome = true := by
  unfold importStep
  simp only [hs, if_true]
  by_cases hp : (lookupStore st.data
      (stableKeyForPath hashFn p container)).isSome = true
  · simp [hp]
  · simp only [hp, Bool.false_eq_true, if_false]
    unfold insertStore
    have hnone : lookupStore st.data (stableKeyForPath hashFn p container)
        = none := by
      cases hl : lookupStore st.data (stableKeyForPath hashFn p container)
      · rfl
      · rw [hl] at hp; simp at hp
    have hany : st.data.any
        (fun q => q.1 = stableKeyForPath hashFn p container) = false := by
      rw [← lookupStore_isSome_eq_any, hnone]
      rfl
    simp only [hany, Bool.false_eq_true, if_false]
    rw [lookupStore_append_right _ hnone]
    simp [lookupStore]

/-- When the step is a no-op on every file, the fold is the identity. -/
theorem foldl_eq_self {α β : Type} (f : α → β → α) (a : α) (l : List β)
    (h : ∀ b ∈ l, f a b = a) : l.foldl f a = a := by
  induction l with
  | nil => rfl
  | cons b rest ih =>
    rw [List.foldl_cons, h b (by simp)]
    exact ih (fun q hq => h q (List.mem_cons_of_mem _ hq))

/-- The whole optimized import run preserves key presence. -/
theorem build_preserves_isSome (hashFn : String → String)
    (mtime : String → Nat) (container : String) (files : List String)
    (st : ArchiveState) (k : String)
    (h : (lookupStore st.data k).isSome = true) :
    (lookupStore (build_archive_from_existing_files_optimized hashFn mtime
      container files st).data k).isSome = true := by
  induction files generalizing st with
  | nil => exact h
  | cons q rest ih =>
    exact ih (importStep hashFn mtime container st q)
      (importStep_preserves_isSome hashFn mtime container st q k h)

/-- After the optimized import run, every scanned file of matching suffix
has its stable key present. -/
theorem build_establishes_keys (hashFn : String → String)
    (mtime : String → Nat) (container : String) (files : List String)
    (st : ArchiveState) :
    ∀ p ∈ files, strToLower (suffixString p) ∈ extensionsFor container →
      (lookupStore (build_archive_from_existing_files_optimized hashFn mtime
        container files st).data
        (stableKeyForPath hashFn p container)).isSome = true := by
  induction files generalizing st with
  | nil => intro p hp; cases hp
  | cons q rest ih =>
    intro p hp hs
    rcases List.mem_cons.mp hp with h1 | h2
    · subst h1
      exact build_preserves_isSome hashFn mtime container rest
        (importStep hashFn mtime container st p) _
        (importStep_establishes_key hashFn mtime container st p hs)
    · exact ih (importStep hashFn mtime container st q) p h2 hs

/-- The import step is the identity whenever a matching suffix implies the
key is already present. -/
theorem importStep_eq_self (hashFn : String → String) (mtime : String → Nat)
    (container : String) (st : ArchiveState) (p : String)
    (h : strToLower (suffixString p) ∈ extensionsFor container →
      (lookupStore st.data (stableKeyForPath hashFn p container)).isSome
        = true) :
    importStep hashFn mtime container st p = st := by
  unfold importStep
  by_cases hs : strToLower (suffixString p) ∈ extensionsFor container
  · simp [hs, h hs]
  · simp [hs]

/-- C7: the optimized existing-files import is idempotent — running it a
second time over the unchanged directory listing (same files, same
modification times, same container) inserts nothing and returns the store,
dirty flag included, exactly as the first run left it. -/
theorem claim_C7_import_idempotent (hashFn : String → String)
    (mtime : String → Nat) (container : String) (files : List String)
    (st : ArchiveState) :
    build_archive_from_existing_files_optimized hashFn mtime container files
        (build_archive_from_existing_files_optimized hashFn mtime container
          files st)
      = build_archive_from_existing_files_optimized hashFn mtime container
          files st := by
  apply foldl_eq_self
  intro p hp
  exact importStep_eq_self hashFn mtime container _ p
    (fun hs => build_establishes_keys hashFn mtime container files st p hp hs)

/-- C6 counterexample: importing `/music/song1.mp3` stores the entry under
the composite stable key, but the entry's identity field is the file stem
`"song1"`, not the synthesized hash, and the resulting store differs from
the one `ArchiveManager.add` with the hash identity would have produced —
the insertion does not go through `add`. -/
theorem claim_C6_import_id_is_stem :
    (build_archive_from_existing_files_optimized hash16 (fun _ => 100) "mp3"
        ["/music/song1.mp3"] (ArchiveManager.init [])).data
        = [("local_0123456789abcdef_mp3",
            ⟨"song1", "local", "song1", "mp3", "/music/song1.mp3", 100⟩)] ∧
      (lookupStore (build_archive_from_existing_files_optimized hash16
          (fun _ => 100) "mp3" ["/music/song1.mp3"]
          (ArchiveManager.init [])).data
          (stableKeyForPath hash16 "/music/song1.mp3" "mp3")).map Entry.id
        = some "song1" ∧
      hash16 "/music/song1.mp3" ≠ "song1" ∧
      (build_archive_from_existing_files_optimized hash16 (fun _ => 100)
          "mp3" ["/music/song1.mp3"] (ArchiveManager.init [])).data
        ≠ (ArchiveManager.add (fun _ => true) (fun _ => 100)
            (ArchiveManager.init []) (hash16 "/music/song1.mp3") "local"
            "song1" "/music/song1.mp3" "mp3").data := by
  decide

/-- The stable key of the importer coincides with the composite key of the
store for source "local" and the hash as identity. -/
theorem stableKey_eq_compositeKey (hashFn : String → String) (p c : String) :
    stableKeyForPath hashFn p c = ArchiveManager.key (hashFn p) "local" c := by
  unfold stableKeyForPath ArchiveManager.key
  rw [if_neg (by decide : ¬("local" : String) = "")]
  rw [show strToLower "local" = "local" from by decide]
  rw [show ("local_" : String) = "local" ++ "_" from by decide]

/-- C6 amended: importing a file of matching suffix whose stable key is
absent appends, by a direct dict write that sets the dirty flag, an entry
with source "local" and the file's stem as identity and title, under the
composite key `local_<hash(abs path)>_<container>` — the key placement
matches `ArchiveManager.key` with the hash as identity, but the insertion is
not the `add` operation and the stored identity field is the stem, not the
hash. -/
theorem claim_C6_amended_import_entry (hashFn : String → String)
    (mtime : String → Nat) (container : String) (st : ArchiveState)
    (p : String)
    (hs : strToLower (suffixString p) ∈ extensionsFor container)
    (habs : lookupStore st.data (stableKeyForPath hashFn p container)
      = none) :
    importStep hashFn mtime container st p
        = ⟨st.data ++ [(stableKeyForPath hashFn p container,
            ⟨stemString p, "local", stemString p, container, p, mtime p⟩)],
            true⟩ ∧
      stableKeyForPath hashFn p container
        = ArchiveManager.key (hashFn p) "local" container := by
  constructor
  · unfold importStep
    simp only [hs, if_true, habs, Option.isSome_none, Bool.false_eq_true,
      if_false]
    unfold insertStore
    have hany : st.data.any
        (fun q => q.1 = stableKeyForPath hashFn p container) = false := by
      rw [← lookupStore_isSome_eq_any, habs]
      rfl
    simp [hany]
  · exact stableKey_eq_compositeKey hashFn p container

/-- C6 amended witness: the concrete one-file import. -/
theorem claim_C6_amended_import_entry_witness :
    importStep hash16 (fun _ => 100) "mp3" (ArchiveManager.init [])
        "/music/song1.mp3"
        = ⟨(ArchiveManager.init []).data
            ++ [(stableKeyForPath hash16 "/music/song1.mp3" "mp3",
              ⟨stemString "/music/song1.mp3", "local",
                stemString "/music/song1.mp3", "mp3", "/music/song1.mp3",
                100⟩)], true⟩ ∧
      stableKeyForPath hash16 "/music/song1.mp3" "mp3"
        = ArchiveManager.key (hash16 "/music/song1.mp3") "local" "mp3" :=
  claim_C6_amended_import_entry hash16 (fun _ => 100) "mp3"
    (ArchiveManager.init []) "/music/song1.mp3" (by decide) rfl

end MpxDownloader
